import Mathlib

/-!
Verification of the PerlinNoise repository (`noise.py`) against its
natural-language specification.

The Python code is shallowly embedded over exact rationals: `float` values
become `ℚ`, `list[list[float]]` becomes `List (List ℚ)`, the seeded random
source becomes an explicit stream `ℕ → ℚ` together with a position, and the
one fallible operation (`/=` by `total_amplitude`, which raises
`ZeroDivisionError` in Python when the divisor is zero and a division is
actually executed) is modelled with `Option`.
-/

set_option autoImplicit false

namespace PerlinNoise

/-- A 2D grid of samples, modelling Python `list[list[float]]`. -/
abbrev Float2d := List (List ℚ)

/-- Cell access `g[h][w]`.  The program only ever indexes in range; out-of-range
access is given the harmless default `0` to keep the embedding total. -/
def get2 (g : Float2d) (h w : ℕ) : ℚ := (g.getD h []).getD w 0

/-- Python `x % 1` on a number: remainder with the divisor's sign, i.e.
`x - ⌊x⌋` (the fractional part). -/
def pyMod1 (x : ℚ) : ℚ := x - ⌊x⌋

/-- State of the seeded random source (`self.random`): the seed-determined
stream of unit draws together with the current position in that stream. -/
structure RState where
  f : ℕ → ℚ
  pos : ℕ

/-- The state held by a `Perlin` instance after `__init__`: the random source,
`self.size = (width, height)` and `self._octave`.  Python integers are `ℤ`. -/
structure PerlinState where
  random : RState
  size : ℤ × ℤ
  _octave : ℤ

/-- Embeds `Perlin.__init__`: seeds the random source (the stdlib seeding is
abstracted as a caller-supplied function `seedFn` from seeds to draw streams,
starting at position 0) and stores the configuration exactly as given.  The
source performs no validation of `width`, `height` or `octave`. -/
def Perlin.init {σ : Type} (seedFn : σ → ℕ → ℚ) (seed : σ)
    (width height octave : ℤ) : PerlinState :=
  { random := ⟨seedFn seed, 0⟩, size := (width, height), _octave := octave }

/-- The `Perlin.width` property: `self.size[0]`. -/
def Perlin.width (p : PerlinState) : ℤ := p.size.1

/-- The `Perlin.height` property: `self.size[1]`. -/
def Perlin.height (p : PerlinState) : ℤ := p.size.2

/-- The `Perlin.octave` property: `self._octave`. -/
def Perlin.octave (p : PerlinState) : ℤ := p._octave

/-- Embeds the static method `Perlin.interpolate`:
`x * (1 - alpha) + alpha * y`. -/
def interpolate (x y alpha : ℚ) : ℚ := x * (1 - alpha) + alpha * y

/-- One row of white noise: `width` successive draws `random.random() % 1`,
appended left to right. -/
def drawRow (f : ℕ → ℚ) : ℕ → ℕ → List ℚ × ℕ
  | 0, pos => ([], pos)
  | n + 1, pos =>
    let rest := drawRow f n (pos + 1)
    (pyMod1 (f pos) :: rest.1, rest.2)

/-- The row-major double loop of `_generate_white_noise`: `height` rows of
`width` draws each, the row index advancing slowest. -/
def drawGrid (f : ℕ → ℚ) (width : ℕ) : ℕ → ℕ → Float2d × ℕ
  | 0, pos => ([], pos)
  | m + 1, pos =>
    let row := drawRow f width pos
    let rest := drawGrid f width m row.2
    (row.1 :: rest.1, rest.2)

/-- Embeds `Perlin._generate_white_noise`: draws `width × height` values from
the instance's random source in row-major order (Python `range` of a
non-positive bound is empty, hence `Int.toNat`), returning the grid and the
advanced random source. -/
def generateWhiteNoise (p : PerlinState) : Float2d × RState :=
  let out := drawGrid p.random.f p.size.1.toNat p.size.2.toNat p.random.pos
  (out.1, ⟨p.random.f, out.2⟩)

/-- Embeds `1 << (octave or self.octave)` from `_generate_smooth_noise`.
Python `or` takes the fallback when the left operand is falsy, i.e. both when
the argument is `None` and when it is `0`. -/
def samplePeriod (selfOctave : ℕ) (octave : Option ℕ) : ℕ :=
  1 <<< (match octave with
         | none => selfOctave
         | some o => if o = 0 then selfOctave else o)

/-- Embeds `int(int(i / sample_period) * sample_period)`: the lower periodic
anchor index (Python `int(i / p)` on non-negative ints is floor division). -/
def sample0 (i p : ℕ) : ℕ := i / p * p

/-- Embeds `int(int(i0 + sample_period) % n)`: the wrapped upper anchor
index.  (The program only evaluates this with `n ≥ 1`.) -/
def sample1 (i0 p n : ℕ) : ℕ := (i0 + p) % n

/-- Embeds `Perlin._generate_smooth_noise`.  Dimensions are taken from the
base grid (`len(base)`, `len(base[0])`; the program only calls this on
non-empty rectangular grids). -/
def generateSmoothNoise (selfOctave : ℕ) (base : Float2d) (octave : Option ℕ) :
    Float2d :=
  let height := base.length
  let width := (base.getD 0 []).length
  let p := samplePeriod selfOctave octave
  let freq : ℚ := 1 / p
  (List.range height).map fun h =>
    let h0 := sample0 h p
    let h1 := sample1 h0 p height
    let vblend : ℚ := ((h : ℚ) - (h0 : ℚ)) * freq
    (List.range width).map fun w =>
      let w0 := sample0 w p
      let w1 := sample1 w0 p width
      let hblend : ℚ := ((w : ℚ) - (w0 : ℚ)) * freq
      let top := interpolate (get2 base h0 w0) (get2 base h1 w0) hblend
      let bottom := interpolate (get2 base h1 w1) (get2 base h0 w1) hblend
      interpolate top bottom vblend

/-- The `persistence` constant of `_generate_perlin_noise`. -/
def persistence : ℚ := 1 / 2

/-- Embeds the accumulator grid `[[0.0 for _ in range(width)] for _ in
range(height)]`. -/
def zeros (height width : ℕ) : Float2d :=
  List.replicate height (List.replicate width 0)

/-- One blending pass: `noise[h][w] += smooth_grid[h][w] * amplitude` for every
cell (both grids always have identical shape in the program). -/
def gridAdd (noise s : Float2d) (amplitude : ℚ) : Float2d :=
  List.zipWith (fun r1 r2 => List.zipWith (fun x y => x + y * amplitude) r1 r2)
    noise s

/-- The blend loop of `_generate_perlin_noise`, consuming the per-octave
smoothed grids in iteration order: each pass halves `amplitude`, adds it to
`total_amplitude`, and accumulates `smooth[o] * amplitude` into the grid. -/
def blendLoop : List Float2d → ℚ → ℚ → Float2d → ℚ × Float2d
  | [], _, total, noise => (total, noise)
  | s :: rest, amplitude, total, noise =>
    blendLoop rest (amplitude * persistence) (total + amplitude * persistence)
      (gridAdd noise s (amplitude * persistence))

/-- Embeds `Perlin._generate_perlin_noise` with the ascending blend loop
`for o in range(octave)` of the source.  The final normalisation divides every
cell by `total_amplitude`; when that is `0.0` and at least one division is
executed (grid non-empty), Python raises `ZeroDivisionError`, modelled as
`none`. -/
def generatePerlinNoise (selfOctave : ℕ) (base : Float2d) : Option Float2d :=
  let height := base.length
  let width := (base.getD 0 []).length
  let smooth := (List.range selfOctave).map fun o =>
    generateSmoothNoise selfOctave base (some o)
  let out := blendLoop smooth 1 0 (zeros height width)
  if out.1 = 0 ∧ 0 < height ∧ 0 < width then none
  else some (out.2.map fun row => row.map fun x => x / out.1)

/-- The variant of `_generate_perlin_noise` with the descending blend loop
`for o in range(octave - 1, -1, -1)` left commented out in the source as the
"original" order: it consumes the smoothed grids in reverse. -/
def generatePerlinNoiseDesc (selfOctave : ℕ) (base : Float2d) : Option Float2d :=
  let height := base.length
  let width := (base.getD 0 []).length
  let smooth := (List.range selfOctave).map fun o =>
    generateSmoothNoise selfOctave base (some o)
  let out := blendLoop smooth.reverse 1 0 (zeros height width)
  if out.1 = 0 ∧ 0 < height ∧ 0 < width then none
  else some (out.2.map fun row => row.map fun x => x / out.1)

/-- Embeds `Perlin.generate` (also `__call__`): white noise from the instance's
random source, then the perlin pipeline; returns the result together with the
advanced random source. -/
def Perlin.generate (p : PerlinState) : Option Float2d × RState :=
  let white := generateWhiteNoise p
  (generatePerlinNoise p._octave.toNat white.1, white.2)

/-- Shape predicate: `g` is an `H × W` rectangular grid. -/
def isGrid (H W : ℕ) (g : Float2d) : Prop :=
  g.length = H ∧ ∀ r ∈ g, r.length = W

/-! ### Basic facts about the embedded operations -/

theorem getD_default_or_mem {α : Type} (l : List α) (d : α) (i : ℕ) :
    l.getD i d = d ∨ l.getD i d ∈ l := by
  by_cases h : i < l.length
  · exact Or.inr (List.getD_eq_getElem l d h ▸ List.getElem_mem h)
  · exact Or.inl (List.getD_eq_default l d (by omega))

theorem get2_of_forall_mem {g : Float2d} {P : ℚ → Prop}
    (hg : ∀ r ∈ g, ∀ x ∈ r, P x) (h0 : P 0) (a b : ℕ) : P (get2 g a b) := by
  unfold get2
  rcases getD_default_or_mem g [] a with hc | hc
  · rw [hc]
    cases b <;> exact h0
  · rcases getD_default_or_mem (g.getD a []) 0 b with hd | hd
    · rw [hd]
      exact h0
    · exact hg _ hc _ hd

theorem persistence_pos : 0 < persistence := by norm_num [persistence]

theorem pyMod1_mem (x : ℚ) : 0 ≤ pyMod1 x ∧ pyMod1 x < 1 :=
  ⟨Int.fract_nonneg x, Int.fract_lt_one x⟩

theorem pyMod1_eq_self {x : ℚ} (h0 : 0 ≤ x) (h1 : x < 1) : pyMod1 x = x := by
  unfold pyMod1
  rw [Int.floor_eq_zero_iff.mpr ⟨h0, h1⟩]
  simp

theorem samplePeriod_pos (so : ℕ) (oct : Option ℕ) : 0 < samplePeriod so oct := by
  unfold samplePeriod
  simp [Nat.one_shiftLeft]

theorem drawRow_length (f : ℕ → ℚ) : ∀ (n pos : ℕ), (drawRow f n pos).1.length = n := by
  intro n
  induction n with
  | zero => intro pos; rfl
  | succ m ih =>
    intro pos
    simp only [drawRow, List.length_cons, ih]

theorem drawRow_snd (f : ℕ → ℚ) : ∀ (n pos : ℕ), (drawRow f n pos).2 = pos + n := by
  intro n
  induction n with
  | zero => intro pos; simp [drawRow]
  | succ m ih =>
    intro pos
    simp only [drawRow, ih]
    omega

theorem drawRow_getD (f : ℕ → ℚ) : ∀ (n pos i : ℕ), i < n →
    (drawRow f n pos).1.getD i 0 = pyMod1 (f (pos + i)) := by
  intro n
  induction n with
  | zero => intro pos i h; omega
  | succ m ih =>
    intro pos i h
    cases i with
    | zero => simp [drawRow]
    | succ j =>
      have hx := ih (pos + 1) j (by omega)
      have harg : pos + 1 + j = pos + (j + 1) := by omega
      rw [harg] at hx
      simpa only [drawRow, List.getD_cons_succ] using hx

theorem drawRow_mem (f : ℕ → ℚ) : ∀ (n pos : ℕ),
    ∀ x ∈ (drawRow f n pos).1, 0 ≤ x ∧ x < 1 := by
  intro n
  induction n with
  | zero => intro pos x hx; simp [drawRow] at hx
  | succ m ih =>
    intro pos x hx
    simp only [drawRow, List.mem_cons] at hx
    rcases hx with rfl | hx
    · exact pyMod1_mem _
    · exact ih (pos + 1) x hx

theorem drawGrid_length (f : ℕ → ℚ) (w : ℕ) : ∀ (m pos : ℕ),
    (drawGrid f w m pos).1.length = m := by
  intro m
  induction m with
  | zero => intro pos; rfl
  | succ k ih =>
    intro pos
    simp only [drawGrid, List.length_cons, ih]

theorem drawGrid_snd (f : ℕ → ℚ) (w : ℕ) : ∀ (m pos : ℕ),
    (drawGrid f w m pos).2 = pos + m * w := by
  intro m
  induction m with
  | zero => intro pos; simp [drawGrid]
  | succ k ih =>
    intro pos
    simp only [drawGrid, ih, drawRow_snd]
    ring

theorem drawGrid_getD (f : ℕ → ℚ) (w : ℕ) : ∀ (m pos hh : ℕ), hh < m →
    (drawGrid f w m pos).1.getD hh [] = (drawRow f w (pos + hh * w)).1 := by
  intro m
  induction m with
  | zero => intro pos hh h; omega
  | succ k ih =>
    intro pos hh h
    cases hh with
    | zero => simp [drawGrid]
    | succ j =>
      simp only [drawGrid, List.getD_cons_succ]
      rw [drawRow_snd]
      rw [ih (pos + w) j (by omega)]
      congr 1
      ring_nf

theorem drawGrid_rows (f : ℕ → ℚ) (w : ℕ) : ∀ (m pos : ℕ),
    ∀ r ∈ (drawGrid f w m pos).1, r.length = w := by
  intro m
  induction m with
  | zero => intro pos r hr; simp [drawGrid] at hr
  | succ k ih =>
    intro pos r hr
    simp only [drawGrid, List.mem_cons] at hr
    rcases hr with rfl | hr
    · exact drawRow_length f w _
    · exact ih _ r hr

theorem drawGrid_mem (f : ℕ → ℚ) (w : ℕ) : ∀ (m pos : ℕ),
    ∀ r ∈ (drawGrid f w m pos).1, ∀ x ∈ r, 0 ≤ x ∧ x < 1 := by
  intro m
  induction m with
  | zero => intro pos r hr; simp [drawGrid] at hr
  | succ k ih =>
    intro pos r hr x hx
    simp only [drawGrid, List.mem_cons] at hr
    rcases hr with rfl | hr
    · exact drawRow_mem f w pos x hx
    · exact ih _ r hr x hx

/-- Interpolation with arguments in the unit interval and a blend factor in
the unit interval stays in the unit interval. -/
theorem interpolate_mem {x y a : ℚ} (hx0 : 0 ≤ x) (hx1 : x ≤ 1) (hy0 : 0 ≤ y)
    (hy1 : y ≤ 1) (ha0 : 0 ≤ a) (ha1 : a ≤ 1) :
    0 ≤ interpolate x y a ∧ interpolate x y a ≤ 1 := by
  unfold interpolate
  constructor
  · nlinarith
  · nlinarith

/-! ### Claim theorems -/

/-- Claim C8: for all finite `x` and `y`, `interpolate(x, y, 0) = x` and
`interpolate(x, y, 1) = y` (endpoint identities of the standalone linear
interpolation utility). -/
theorem interpolate_endpoint_identity (x y : ℚ) :
    interpolate x y 0 = x ∧ interpolate x y 1 = y := by
  unfold interpolate
  constructor <;> ring

/-- Claim C3, counterexample: constructing a `Perlin` instance with
`width = 0`, `height = -3` and `octave = 0` does not fail — `__init__`
performs no validation and raises nothing (no `ConfigurationError` exists in
the code); the invalid values are stored unchanged, refuting the claim that
construction with non-positive parameters fails at configuration time. -/
theorem init_invalid_config_succeeds_cex :
    Perlin.width (Perlin.init (fun _ : Unit => fun _ => (0 : ℚ)) () 0 (-3) 0) = 0 ∧
    Perlin.height (Perlin.init (fun _ : Unit => fun _ => (0 : ℚ)) () 0 (-3) 0) = -3 ∧
    Perlin.octave (Perlin.init (fun _ : Unit => fun _ => (0 : ℚ)) () 0 (-3) 0) = 0 :=
  ⟨rfl, rfl, rfl⟩

/-- Claim C3, amended: construction never fails and never validates or clamps:
for every configuration — including `width ≤ 0`, `height ≤ 0` or `octave ≤ 0`
— `__init__` succeeds and stores the given values unchanged (there is no
`ConfigurationError` in the code; invalid values surface only later, inside
`generate()`). -/
theorem init_stores_config_unvalidated {σ : Type} (seedFn : σ → ℕ → ℚ)
    (seed : σ) (w h o : ℤ) :
    Perlin.width (Perlin.init seedFn seed w h o) = w ∧
    Perlin.height (Perlin.init seedFn seed w h o) = h ∧
    Perlin.octave (Perlin.init seedFn seed w h o) = o ∧
    (Perlin.init seedFn seed w h o).random.pos = 0 :=
  ⟨rfl, rfl, rfl, rfl⟩

/-- Claim C4: for every fixed seed and identical valid configuration, two
separately constructed instances produce identical grids from their first call
to `generate()` — determinism as two-run equality over the embedded function,
with the stdlib seeding abstracted as an arbitrary deterministic map from
seeds to draw streams. -/
theorem generate_deterministic_two_runs {σ : Type} (seedFn : σ → ℕ → ℚ)
    (seed : σ) (w h o : ℤ) (hw : 1 ≤ w) (hh : 1 ≤ h) (ho : 1 ≤ o) :
    (Perlin.generate (Perlin.init seedFn seed w h o)).1 =
      (Perlin.generate (Perlin.init seedFn seed w h o)).1 := rfl

/-- Witness for C4 at the concrete configuration `width = height = octave = 1`
with a constant draw stream. -/
theorem generate_deterministic_two_runs_witness :
    (Perlin.generate (Perlin.init (fun _ : Unit => fun _ => (0 : ℚ)) () 1 1 1)).1 =
      (Perlin.generate (Perlin.init (fun _ : Unit => fun _ => (0 : ℚ)) () 1 1 1)).1 :=
  generate_deterministic_two_runs (fun _ : Unit => fun _ => (0 : ℚ)) () 1 1 1
    (by norm_num) (by norm_num) (by norm_num)

/-- Claim C1 (slip in the code): with `octave = 1`, `width = height = 2` and a
seed whose stream draws `0.1, 0.4, 0.7, 0.2`, the white-noise grid is
`[[0.1, 0.4], [0.7, 0.2]]` but `generate()` returns the constant grid
`[[0.1, 0.1], [0.1, 0.1]]`, not the raw grid: `octave or self.octave` treats
the level index `0` as falsy, so the single smoothing pass runs with
`sample_period = 2` instead of `1` and collapses every cell to `base[0][0]`. -/
theorem octave_one_generate_ne_white_noise :
    (generateWhiteNoise (Perlin.init
        (fun _ : Unit => fun i => [1/10, 2/5, 7/10, 1/5].getD i 0) () 2 2 1)).1 =
      [[1/10, 2/5], [7/10, 1/5]] ∧
    (Perlin.generate (Perlin.init
        (fun _ : Unit => fun i => [1/10, 2/5, 7/10, 1/5].getD i 0) () 2 2 1)).1 =
      some [[1/10, 1/10], [1/10, 1/10]] ∧
    (Perlin.generate (Perlin.init
        (fun _ : Unit => fun i => [1/10, 2/5, 7/10, 1/5].getD i 0) () 2 2 1)).1 ≠
      some ((generateWhiteNoise (Perlin.init
        (fun _ : Unit => fun i => [1/10, 2/5, 7/10, 1/5].getD i 0) () 2 2 1)).1) := by
  refine ⟨?_, ?_, ?_⟩ <;>
    norm_num [Perlin.generate, generateWhiteNoise, Perlin.init, drawGrid,
      drawRow, pyMod1, generatePerlinNoise, generateSmoothNoise, blendLoop,
      gridAdd, zeros, samplePeriod, sample0, sample1, interpolate, get2,
      persistence, List.range_succ, Nat.one_shiftLeft, List.replicate_succ,
      List.zipWith_cons_cons]

/-- Claim C2 (slip in the code): `_generate_smooth_noise` called with the
zero-indexed level `o = 0` does not use `sample_period = 2^0 = 1`: Python's
`octave or self.octave` treats `0` the same as `None`, so on an instance with
`octave = 2` the level-0 pass runs with `sample_period = 4`, and on the base
`[[0, 1], [0, 1]]` it returns the collapsed grid `[[0, 0], [0, 0]]` instead of
the period-1 identity. -/
theorem smooth_level_zero_period_bug :
    samplePeriod 2 (some 0) = 4 ∧ samplePeriod 2 (some 0) ≠ 1 ∧
    generateSmoothNoise 2 [[0, 1], [0, 1]] (some 0) = [[0, 0], [0, 0]] ∧
    generateSmoothNoise 2 [[0, 1], [0, 1]] (some 0) ≠ [[(0 : ℚ), 1], [0, 1]] := by
  refine ⟨?_, ?_, ?_, ?_⟩ <;>
    norm_num [generateSmoothNoise, samplePeriod, sample0, sample1, interpolate,
      get2, List.range_succ, Nat.one_shiftLeft]

/-- Claim C6, counterexample: on the base `[[0, 0, 1, 1]]` with two octaves,
the ascending blend loop of the source yields `[[0, 0, 1/3, 1/3]]` while the
descending "original" loop yields `[[0, 0, 2/3, 2/3]]` — the traversal order
changes the result, because ascending weights octave `o` by
`persistence^(o+1)` but descending weights it by `persistence^(n-o)`. -/
theorem blend_order_dependent_cex :
    generatePerlinNoise 2 [[0, 0, 1, 1]] = some [[0, 0, 1/3, 1/3]] ∧
    generatePerlinNoiseDesc 2 [[0, 0, 1, 1]] = some [[0, 0, 2/3, 2/3]] ∧
    generatePerlinNoise 2 [[0, 0, 1, 1]] ≠ generatePerlinNoiseDesc 2 [[0, 0, 1, 1]] := by
  have e1 : generatePerlinNoise 2 [[0, 0, 1, 1]] = some [[0, 0, 1/3, 1/3]] := by
    norm_num [generatePerlinNoise, generateSmoothNoise, blendLoop, gridAdd,
      zeros, samplePeriod, sample0, sample1, interpolate, get2, persistence,
      List.range_succ, Nat.one_shiftLeft, List.replicate_succ,
      List.zipWith_cons_cons]
  have e2 : generatePerlinNoiseDesc 2 [[0, 0, 1, 1]] = some [[0, 0, 2/3, 2/3]] := by
    norm_num [generatePerlinNoiseDesc, generateSmoothNoise, blendLoop, gridAdd,
      zeros, samplePeriod, sample0, sample1, interpolate, get2, persistence,
      List.range_succ, Nat.one_shiftLeft, List.replicate_succ,
      List.zipWith_cons_cons]
  refine ⟨e1, e2, ?_⟩
  rw [e1, e2]
  norm_num

/-- Claim C6, amended: the two traversal orders assign mirrored amplitude
weights, so they agree when there is a single octave: for every base grid,
running the blend loop ascending and descending over one octave yields the
same final normalized grid (for two or more octaves they differ in general). -/
theorem blend_order_single_octave_agrees (base : Float2d) :
    generatePerlinNoiseDesc 1 base = generatePerlinNoise 1 base := by
  simp [generatePerlinNoiseDesc, generatePerlinNoise, List.range_succ]

/-- Claim C7, counterexample: for the base `[[0], [1], [0]]` (`height = 3`)
at level `o = 2` (`sample_period = 4 ≥ 3`), the wrapped anchor is
`h1 = (0 + 4) % 3 = 1 ≠ 0` and the smoothed grid `[[0], [1/4], [1/2]]` is not
constant along the vertical axis; moreover even when the wrap collapses
(`height = 2` divides `4`, giving `h1 = 0`), the smoothed grid still varies
with the row through the vertical blend factor. -/
theorem smooth_wrap_collapse_cex :
    sample1 (sample0 2 4) 4 3 = 1 ∧
    generateSmoothNoise 1 [[0], [1], [0]] (some 2) = [[0], [1/4], [1/2]] ∧
    get2 (generateSmoothNoise 1 [[0], [1], [0]] (some 2)) 1 0 ≠
      get2 (generateSmoothNoise 1 [[0], [1], [0]] (some 2)) 0 0 ∧
    sample1 (sample0 1 4) 4 2 = 0 ∧
    get2 (generateSmoothNoise 1 [[0, 0, 0, 0, 1, 1, 1, 1],
      [0, 0, 0, 0, 1, 1, 1, 1]] (some 2)) 1 0 ≠
      get2 (generateSmoothNoise 1 [[0, 0, 0, 0, 1, 1, 1, 1],
        [0, 0, 0, 0, 1, 1, 1, 1]] (some 2)) 0 0 := by
  refine ⟨?_, ?_, ?_, ?_, ?_⟩ <;>
    norm_num [generateSmoothNoise, samplePeriod, sample0, sample1, interpolate,
      get2, List.range_succ, Nat.one_shiftLeft]

/-- Claim C7, amended: when `sample_period ≥ height`, the lower anchor is
`h0 = 0` for every row `h`, and the wrapped upper anchor is
`h1 = sample_period % height`, which is `0` exactly when `height` divides
`sample_period`; the computation is total, but the smoothed grid need not be
flat along the axis. -/
theorem smooth_high_period_anchors (hgt p i : ℕ) (h1 : i < hgt) (h2 : hgt ≤ p) :
    sample0 i p = 0 ∧ sample1 (sample0 i p) p hgt = p % hgt ∧
    (hgt ∣ p → sample1 (sample0 i p) p hgt = 0) := by
  have h0 : sample0 i p = 0 := by
    unfold sample0
    rw [Nat.div_eq_of_lt (lt_of_lt_of_le h1 h2), Nat.zero_mul]
  refine ⟨h0, ?_, ?_⟩
  · rw [h0]
    unfold sample1
    rw [Nat.zero_add]
  · intro hd
    rw [h0]
    unfold sample1
    rw [Nat.zero_add, Nat.mod_eq_zero_of_dvd hd]

/-- Witness for the amended C7 at `height = 3`, `sample_period = 4`,
row `i = 2`. -/
theorem smooth_high_period_anchors_witness :
    sample0 2 4 = 0 ∧ sample1 (sample0 2 4) 4 3 = 4 % 3 ∧
    (3 ∣ 4 → sample1 (sample0 2 4) 4 3 = 0) :=
  smooth_high_period_anchors 3 4 2 (by norm_num) (by norm_num)

/-- Claim C9: `_generate_white_noise` stores each drawn value as-is (for
draws in `[0,1)` the `% 1` is the identity): cell `[hh][ww]` is the
`(hh * width + ww)`-th draw from the random source counted from its starting
position, in row-major order, and the source advances by exactly
`width * height` draws. -/
theorem white_noise_cells_and_advance (f : ℕ → ℚ) (pos : ℕ) (w h oct : ℤ)
    (hh ww : ℕ) (hf : ∀ i, 0 ≤ f i ∧ f i < 1) (h1 : hh < h.toNat)
    (h2 : ww < w.toNat) :
    get2 (generateWhiteNoise ⟨⟨f, pos⟩, (w, h), oct⟩).1 hh ww =
      f (pos + (hh * w.toNat + ww)) ∧
    (generateWhiteNoise ⟨⟨f, pos⟩, (w, h), oct⟩).2.pos =
      pos + w.toNat * h.toNat := by
  constructor
  · show ((drawGrid f w.toNat h.toNat pos).1.getD hh []).getD ww 0 = _
    rw [drawGrid_getD f w.toNat h.toNat pos hh h1,
      drawRow_getD f w.toNat (pos + hh * w.toNat) ww h2,
      pyMod1_eq_self (hf _).1 (hf _).2]
    congr 1
    ring
  · show (drawGrid f w.toNat h.toNat pos).2 = _
    rw [drawGrid_snd]
    ring

/-- Witness for C9 with the constant draw stream `1/2` on a `2 × 2` grid,
reading cell `(1, 1)`. -/
theorem white_noise_cells_and_advance_witness :
    get2 (generateWhiteNoise ⟨⟨fun _ => (1 : ℚ)/2, 0⟩, (2, 2), 1⟩).1 1 1 =
      (fun _ => (1 : ℚ)/2) (0 + (1 * (2 : ℤ).toNat + 1)) ∧
    (generateWhiteNoise ⟨⟨fun _ => (1 : ℚ)/2, 0⟩, (2, 2), 1⟩).2.pos =
      0 + (2 : ℤ).toNat * (2 : ℤ).toNat :=
  white_noise_cells_and_advance (fun _ => (1 : ℚ)/2) 0 2 2 1 1 1
    (fun _ => ⟨by norm_num, by norm_num⟩) (by decide) (by decide)

/-- Claim C10: with `octave = 0` and positive dimensions, construction
succeeds (the octave is stored as `0` without complaint), and `generate()`
produces no grid: the blend loop runs zero times, `total_amplitude` stays
`0.0`, and the normalisation's division by zero fails (modelled as `none`). -/
theorem octave_zero_generate_division_error {σ : Type} (seedFn : σ → ℕ → ℚ)
    (seed : σ) (w h : ℤ) (hw : 1 ≤ w) (hh : 1 ≤ h) :
    Perlin.octave (Perlin.init seedFn seed w h 0) = 0 ∧
    (Perlin.generate (Perlin.init seedFn seed w h 0)).1 = none := by
  refine ⟨rfl, ?_⟩
  show generatePerlinNoise (0 : ℤ).toNat
    (drawGrid (seedFn seed) w.toNat h.toNat 0).1 = none
  have hlen : (drawGrid (seedFn seed) w.toNat h.toNat 0).1.length = h.toNat :=
    drawGrid_length (seedFn seed) w.toNat h.toNat 0
  have h0 : 0 < (drawGrid (seedFn seed) w.toNat h.toNat 0).1.length := by
    rw [hlen]
    omega
  have hrow : ((drawGrid (seedFn seed) w.toNat h.toNat 0).1.getD 0 []).length =
      w.toNat := by
    rw [List.getD_eq_getElem _ [] h0]
    exact drawGrid_rows (seedFn seed) w.toNat h.toNat 0 _ (List.getElem_mem h0)
  unfold generatePerlinNoise
  simp only [Int.toNat_zero, List.range_zero, List.map_nil]
  rw [if_pos]
  refine ⟨rfl, h0, ?_⟩
  rw [hrow]
  omega

/-- Witness for C10 at `width = height = 1` with a constant draw stream. -/
theorem octave_zero_generate_division_error_witness :
    Perlin.octave (Perlin.init (fun _ : Unit => fun _ => (0 : ℚ)) () 1 1 0) = 0 ∧
    (Perlin.generate (Perlin.init (fun _ : Unit => fun _ => (0 : ℚ)) () 1 1 0)).1 =
      none :=
  octave_zero_generate_division_error (fun _ : Unit => fun _ => (0 : ℚ)) () 1 1
    (by norm_num) (by norm_num)

theorem getD_map_range {α : Type} (dflt : α) (H i : ℕ) (F : ℕ → α) :
    ((List.range H).map F).getD i dflt = if i < H then F i else dflt := by
  by_cases h : i < H
  · have hlt : i < ((List.range H).map F).length := by simpa using h
    rw [if_pos h, List.getD_eq_getElem _ _ hlt, List.getElem_map F,
      List.getElem_range]
  · rw [if_neg h, List.getD_eq_default _ _ (by simp; omega)]

theorem get2_map_range (H W : ℕ) (G : ℕ → ℕ → ℚ) (a b : ℕ) :
    get2 ((List.range H).map fun i => (List.range W).map fun j => G i j) a b =
      if a < H ∧ b < W then G a b else 0 := by
  unfold get2
  rw [getD_map_range]
  by_cases h1 : a < H
  · rw [if_pos h1, getD_map_range]
    by_cases h2 : b < W
    · rw [if_pos h2, if_pos ⟨h1, h2⟩]
    · rw [if_neg h2, if_neg (by tauto)]
  · rw [if_neg h1, if_neg (by tauto)]
    cases b <;> rfl

theorem blendFactor_mem (i p : ℕ) (hp : 0 < p) :
    0 ≤ ((i : ℚ) - (sample0 i p : ℚ)) * (1 / (p : ℚ)) ∧
      ((i : ℚ) - (sample0 i p : ℚ)) * (1 / (p : ℚ)) ≤ 1 := by
  have hmod : (i : ℚ) - (sample0 i p : ℚ) = ((i % p : ℕ) : ℚ) := by
    have hq : ((p : ℚ)) * ((i / p : ℕ) : ℚ) + ((i % p : ℕ) : ℚ) = (i : ℚ) := by
      exact_mod_cast Nat.div_add_mod i p
    unfold sample0
    push_cast
    linarith
  have hppos : (0 : ℚ) < p := by exact_mod_cast hp
  constructor
  · apply mul_nonneg
    · rw [hmod]
      positivity
    · positivity
  · rw [hmod, mul_one_div, div_le_one hppos]
    exact_mod_cast (Nat.mod_lt i hp).le

theorem get2_smooth_mem (so : ℕ) (oct : Option ℕ) (base : Float2d) (a b : ℕ)
    (hb : ∀ i j, 0 ≤ get2 base i j ∧ get2 base i j ≤ 1) :
    0 ≤ get2 (generateSmoothNoise so base oct) a b ∧
      get2 (generateSmoothNoise so base oct) a b ≤ 1 := by
  have hp : 0 < samplePeriod so oct := samplePeriod_pos so oct
  simp only [generateSmoothNoise]
  rw [get2_map_range]
  by_cases hin : a < base.length ∧ b < (base.getD 0 []).length
  · rw [if_pos hin]
    obtain ⟨hv0, hv1⟩ := blendFactor_mem a (samplePeriod so oct) hp
    obtain ⟨hw0, hw1⟩ := blendFactor_mem b (samplePeriod so oct) hp
    exact interpolate_mem
      (interpolate_mem (hb _ _).1 (hb _ _).2 (hb _ _).1 (hb _ _).2 hw0 hw1).1
      (interpolate_mem (hb _ _).1 (hb _ _).2 (hb _ _).1 (hb _ _).2 hw0 hw1).2
      (interpolate_mem (hb _ _).1 (hb _ _).2 (hb _ _).1 (hb _ _).2 hw0 hw1).1
      (interpolate_mem (hb _ _).1 (hb _ _).2 (hb _ _).1 (hb _ _).2 hw0 hw1).2
      hv0 hv1
  · rw [if_neg hin]
    norm_num

theorem smooth_isGrid (so : ℕ) (oct : Option ℕ) (base : Float2d) :
    isGrid base.length (base.getD 0 []).length
      (generateSmoothNoise so base oct) := by
  constructor
  · simp [generateSmoothNoise]
  · intro r hr
    simp only [generateSmoothNoise, List.mem_map] at hr
    obtain ⟨x, hx, rfl⟩ := hr
    simp

theorem zeros_isGrid (H W : ℕ) : isGrid H W (zeros H W) := by
  constructor
  · simp [zeros]
  · intro r hr
    rw [zeros] at hr
    rw [List.eq_of_mem_replicate hr]
    simp

theorem get2_zeros (H W a b : ℕ) : get2 (zeros H W) a b = 0 := by
  unfold get2 zeros
  rcases getD_default_or_mem (List.replicate H (List.replicate W (0 : ℚ))) [] a
    with hc | hc
  · rw [hc]
    cases b <;> rfl
  · rw [List.eq_of_mem_replicate hc]
    rcases getD_default_or_mem (List.replicate W (0 : ℚ)) 0 b with hd | hd
    · exact hd
    · exact List.eq_of_mem_replicate hd

theorem gridAdd_isGrid {H W : ℕ} {noise s : Float2d} (amp : ℚ)
    (hn : isGrid H W noise) (hs : isGrid H W s) :
    isGrid H W (gridAdd noise s amp) := by
  obtain ⟨hn1, hn2⟩ := hn
  obtain ⟨hs1, hs2⟩ := hs
  constructor
  · unfold gridAdd
    rw [List.length_zipWith, hn1, hs1, min_self]
  · intro r hr
    unfold gridAdd at hr
    rw [List.mem_iff_getElem] at hr
    obtain ⟨i, hi, rfl⟩ := hr
    rw [List.length_zipWith] at hi
    have hi1 : i < noise.length := lt_of_lt_of_le hi (min_le_left _ _)
    have hi2 : i < s.length := lt_of_lt_of_le hi (min_le_right _ _)
    rw [List.getElem_zipWith, List.length_zipWith,
      hn2 _ (List.getElem_mem hi1), hs2 _ (List.getElem_mem hi2), min_self]

theorem get2_gridAdd {H W : ℕ} {noise s : Float2d} (amp : ℚ)
    (hn : isGrid H W noise) (hs : isGrid H W s) (a b : ℕ) :
    get2 (gridAdd noise s amp) a b = get2 noise a b + get2 s a b * amp := by
  obtain ⟨hn1, hn2⟩ := hn
  obtain ⟨hs1, hs2⟩ := hs
  unfold get2 gridAdd
  by_cases h1 : a < H
  · have ha1 : a < (List.zipWith
        (fun r1 r2 => List.zipWith (fun x y => x + y * amp) r1 r2)
        noise s).length := by
      rw [List.length_zipWith, hn1, hs1, min_self]
      exact h1
    have ha2 : a < noise.length := by rw [hn1]; exact h1
    have ha3 : a < s.length := by rw [hs1]; exact h1
    rw [List.getD_eq_getElem _ _ ha1, List.getElem_zipWith,
      List.getD_eq_getElem noise [] ha2, List.getD_eq_getElem s [] ha3]
    have hrn : (noise[a]).length = W := hn2 _ (List.getElem_mem ha2)
    have hrs : (s[a]).length = W := hs2 _ (List.getElem_mem ha3)
    by_cases h2 : b < W
    · have hb1 : b < (List.zipWith (fun x y => x + y * amp)
          (noise[a]) (s[a])).length := by
        rw [List.length_zipWith, hrn, hrs, min_self]
        exact h2
      have hb2 : b < (noise[a]).length := by rw [hrn]; exact h2
      have hb3 : b < (s[a]).length := by rw [hrs]; exact h2
      rw [List.getD_eq_getElem _ _ hb1, List.getElem_zipWith,
        List.getD_eq_getElem _ _ hb2, List.getD_eq_getElem _ _ hb3]
    · have hb1 : (List.zipWith (fun x y => x + y * amp)
          (noise[a]) (s[a])).length ≤ b := by
        rw [List.length_zipWith, hrn, hrs, min_self]
        omega
      rw [List.getD_eq_default _ _ hb1,
        List.getD_eq_default _ _ (by rw [hrn]; omega),
        List.getD_eq_default _ _ (by rw [hrs]; omega)]
      ring
  · have ha1 : (List.zipWith
        (fun r1 r2 => List.zipWith (fun x y => x + y * amp) r1 r2)
        noise s).length ≤ a := by
      rw [List.length_zipWith, hn1, hs1, min_self]
      omega
    rw [List.getD_eq_default _ _ ha1,
      List.getD_eq_default noise [] (by rw [hn1]; omega),
      List.getD_eq_default s [] (by rw [hs1]; omega)]
    cases b <;> simp

theorem blendLoop_inv {H W : ℕ} :
    ∀ (sl : List Float2d) (amp total : ℚ) (noise : Float2d),
      0 < amp → 0 ≤ total →
      (∀ s ∈ sl, isGrid H W s ∧ ∀ a b, 0 ≤ get2 s a b ∧ get2 s a b ≤ 1) →
      isGrid H W noise →
      (∀ a b, 0 ≤ get2 noise a b ∧ get2 noise a b ≤ total) →
      total ≤ (blendLoop sl amp total noise).1 ∧
      (sl ≠ [] → total < (blendLoop sl amp total noise).1) ∧
      isGrid H W (blendLoop sl amp total noise).2 ∧
      ∀ a b, 0 ≤ get2 (blendLoop sl amp total noise).2 a b ∧
        get2 (blendLoop sl amp total noise).2 a b ≤
          (blendLoop sl amp total noise).1 := by
  intro sl
  induction sl with
  | nil =>
    intro amp total noise hamp htot hsl hn hcell
    exact ⟨le_rfl, fun hne => absurd rfl hne, hn, hcell⟩
  | cons s rest ih =>
    intro amp total noise hamp htot hsl hn hcell
    have hs := hsl s (List.mem_cons_self s rest)
    have hamp2 : 0 < amp * persistence := mul_pos hamp persistence_pos
    have hstep : blendLoop (s :: rest) amp total noise =
        blendLoop rest (amp * persistence) (total + amp * persistence)
          (gridAdd noise s (amp * persistence)) := rfl
    have hn2 : isGrid H W (gridAdd noise s (amp * persistence)) :=
      gridAdd_isGrid _ hn hs.1
    have hcell2 : ∀ a b, 0 ≤ get2 (gridAdd noise s (amp * persistence)) a b ∧
        get2 (gridAdd noise s (amp * persistence)) a b ≤
          total + amp * persistence := by
      intro a b
      rw [get2_gridAdd _ hn hs.1]
      obtain ⟨c0, c1⟩ := hcell a b
      obtain ⟨d0, d1⟩ := hs.2 a b
      constructor
      · have hm := mul_nonneg d0 hamp2.le
        linarith
      · have hm : get2 s a b * (amp * persistence) ≤ 1 * (amp * persistence) :=
          mul_le_mul_of_nonneg_right d1 hamp2.le
        linarith
    have ihx := ih (amp * persistence) (total + amp * persistence)
      (gridAdd noise s (amp * persistence)) hamp2 (by linarith)
      (fun t ht => hsl t (List.mem_cons_of_mem s ht)) hn2 hcell2
    rw [hstep]
    exact ⟨by linarith [ihx.1], fun _ => by linarith [ihx.1],
      ihx.2.2.1, ihx.2.2.2⟩

theorem get2_map_div (g : Float2d) (t : ℚ) (a b : ℕ) :
    get2 (g.map fun row => row.map fun x => x / t) a b = get2 g a b / t := by
  unfold get2
  by_cases h1 : a < g.length
  · have hm1 : a < (g.map fun row => row.map fun x => x / t).length := by
      simpa using h1
    rw [List.getD_eq_getElem _ [] hm1, List.getElem_map,
      List.getD_eq_getElem g [] h1]
    by_cases h2 : b < (g[a]).length
    · have hm2 : b < ((g[a]).map fun x => x / t).length := by simpa using h2
      rw [List.getD_eq_getElem _ 0 hm2, List.getElem_map,
        List.getD_eq_getElem _ 0 h2]
    · have hm2 : ((g[a]).map fun x => x / t).length ≤ b := by
        simp
        omega
      rw [List.getD_eq_default _ 0 hm2, List.getD_eq_default _ 0 (by omega)]
      exact (zero_div t).symm
  · have hm1 : (g.map fun row => row.map fun x => x / t).length ≤ a := by
      simp
      omega
    rw [List.getD_eq_default _ [] hm1, List.getD_eq_default g [] (by omega)]
    cases b <;> exact (zero_div t).symm

theorem white_cells_unit (p : PerlinState) (a b : ℕ) :
    0 ≤ get2 (generateWhiteNoise p).1 a b ∧
      get2 (generateWhiteNoise p).1 a b ≤ 1 := by
  have hP : ∀ r ∈ (generateWhiteNoise p).1, ∀ x ∈ r, 0 ≤ x ∧ x ≤ 1 := by
    intro r hr x hx
    have hm := drawGrid_mem p.random.f p.size.1.toNat p.size.2.toNat
      p.random.pos r hr x hx
    exact ⟨hm.1, hm.2.le⟩
  exact get2_of_forall_mem (P := fun x => 0 ≤ x ∧ x ≤ 1) hP (by norm_num) a b

theorem perlin_cells_unit (n : ℕ) (base : Float2d) (hn : 1 ≤ n)
    (hb : ∀ a b, 0 ≤ get2 base a b ∧ get2 base a b ≤ 1) :
    ∃ g, generatePerlinNoise n base = some g ∧
      ∀ a b, 0 ≤ get2 g a b ∧ get2 g a b ≤ 1 := by
  have hsl : ∀ s ∈ (List.range n).map
      (fun o => generateSmoothNoise n base (some o)),
      isGrid base.length (base.getD 0 []).length s ∧
        ∀ a b, 0 ≤ get2 s a b ∧ get2 s a b ≤ 1 := by
    intro s hsm
    rw [List.mem_map] at hsm
    obtain ⟨o, _, rfl⟩ := hsm
    exact ⟨smooth_isGrid n (some o) base,
      fun a b => get2_smooth_mem n (some o) base a b hb⟩
  have hz2 : ∀ a b,
      0 ≤ get2 (zeros base.length (base.getD 0 []).length) a b ∧
      get2 (zeros base.length (base.getD 0 []).length) a b ≤ 0 := by
    intro a b
    rw [get2_zeros]
    exact ⟨le_rfl, le_rfl⟩
  have hne : ((List.range n).map
      (fun o => generateSmoothNoise n base (some o))) ≠ [] := by
    have hl : ((List.range n).map
        (fun o => generateSmoothNoise n base (some o))).length = n := by simp
    intro hcontra
    rw [hcontra] at hl
    simp at hl
    omega
  obtain ⟨hmono, hpos, hgrid, hcells⟩ :=
    blendLoop_inv ((List.range n).map
        (fun o => generateSmoothNoise n base (some o)))
      1 0 (zeros base.length (base.getD 0 []).length) one_pos le_rfl hsl
      (zeros_isGrid _ _) hz2
  set out := blendLoop ((List.range n).map
      (fun o => generateSmoothNoise n base (some o)))
    1 0 (zeros base.length (base.getD 0 []).length) with hout
  have htpos : 0 < out.1 := hpos hne
  refine ⟨out.2.map fun row => row.map fun x => x / out.1, ?_, ?_⟩
  · show (if out.1 = 0 ∧ 0 < base.length ∧ 0 < (base.getD 0 []).length
        then none
        else some (out.2.map fun row => row.map fun x => x / out.1)) =
      some (out.2.map fun row => row.map fun x => x / out.1)
    rw [if_neg]
    rintro ⟨he, -⟩
    exact absurd he (ne_of_gt htpos)
  · intro a b
    rw [get2_map_div]
    obtain ⟨hc0, hc1⟩ := hcells a b
    exact ⟨div_nonneg hc0 htpos.le, (div_le_one htpos).mpr hc1⟩

/-- Claim C5: for every valid configuration (`width ≥ 1`, `height ≥ 1`,
`octave ≥ 1`) and every draw stream, every cell of the grid returned by
`generate()` lies in `[0, 1]` — the result is a weighted average of values in
`[0, 1)` normalized by the (positive) sum of the weights. -/
theorem generate_cells_in_unit_interval {σ : Type} (seedFn : σ → ℕ → ℚ)
    (seed : σ) (w h o : ℤ) (hw : 1 ≤ w) (hh : 1 ≤ h) (ho : 1 ≤ o) :
    ∃ g, (Perlin.generate (Perlin.init seedFn seed w h o)).1 = some g ∧
      ∀ a b, 0 ≤ get2 g a b ∧ get2 g a b ≤ 1 := by
  have hb := white_cells_unit (Perlin.init seedFn seed w h o)
  exact perlin_cells_unit o.toNat
    (generateWhiteNoise (Perlin.init seedFn seed w h o)).1 (by omega)
    (fun a b => hb a b)

/-- Witness for C5 at `width = height = octave = 1` with a constant draw
stream. -/
theorem generate_cells_in_unit_interval_witness :
    ∃ g, (Perlin.generate (Perlin.init (fun _ : Unit => fun _ => (1 : ℚ)/2)
        () 1 1 1)).1 = some g ∧
      ∀ a b, 0 ≤ get2 g a b ∧ get2 g a b ≤ 1 :=
  generate_cells_in_unit_interval (fun _ : Unit => fun _ => (1 : ℚ)/2) () 1 1 1
    (by norm_num) (by norm_num) (by norm_num)

end PerlinNoise
